import Mathlib

/-!
Verification development for `make_feed.py` of `mclars27/my-comics-rss`, a
comic-strip RSS generator.  The Python source is shallowly embedded: pure
string logic is translated function by function; library effects (HTTP
fetches, the SHA-1 digest, `BeautifulSoup`/`json.loads` parsing, the
filesystem) are passed in as explicit oracles or pre-parsed inputs; Python
exceptions become `Except` values.
-/

set_option autoImplicit false

namespace MakeFeed

/-! ## String helpers (Python `in`, `startswith`, `replace`, `lower`) -/

/-- Python's `needle in hay` on the character list of a string. -/
def containsL (needle : List Char) : List Char → Bool
  | [] => needle.isEmpty
  | c :: rest => needle.isPrefixOf (c :: rest) || containsL needle rest

/-- Python's substring test `sub in s`. -/
def pyContains (s sub : String) : Bool := containsL sub.data s.data

/-- Python's `s.startswith(pre)`. -/
def pyStartswith (s pre : String) : Bool := pre.data.isPrefixOf s.data

/-- Python's `s.lower()` for the ASCII strings this program handles. -/
def pyLower (s : String) : String := String.mk (s.data.map Char.toLower)

/-- One fuel-indexed pass of Python's `str.replace` (all occurrences,
left to right, non-overlapping); `fuel` at least the length of the text
makes it exact for a non-empty pattern. -/
def replaceL (pat rep : List Char) : Nat → List Char → List Char
  | _, [] => []
  | 0, l => l
  | Nat.succ fuel, c :: rest =>
    if !pat.isEmpty && pat.isPrefixOf (c :: rest) then
      rep ++ replaceL pat rep fuel ((c :: rest).drop pat.length)
    else
      c :: replaceL pat rep fuel rest

/-- Python's `s.replace(pat, rep)` for a non-empty pattern. -/
def pyReplace (s pat rep : String) : String :=
  String.mk (replaceL pat.data rep.data s.data.length s.data)

/-! ## GoComics extractor: `_is_social_card`, `_candidate_score` -/

/-- Line 76: `("GC_Social_FB_" in url) or ("GC_Social_" in url)`. -/
def _is_social_card (url : String) : Bool :=
  pyContains url "GC_Social_FB_" || pyContains url "GC_Social_"

/-- Lines 80-95: the candidate score (higher = more likely the real panel). -/
def _candidate_score (url : String) : Int :=
  (if pyContains url "assets.amuniversal.com/" then (100 : Int) else 0)
  + (if pyContains url "featureassets.amuniversal.com/assets/" then 95 else 0)
  + (if pyContains url "featureassets.gocomics.com/assets/" then 80 else 0)
  + (if pyContains url "gocomicscmsassets.gocomics.com/" then 40 else 0)
  + (if pyContains url "width=2800" then 10 else 0)
  + (if _is_social_card url then -999 else 0)

/-! ## The `__NEXT_DATA__` JSON walk -/

/-- A Python value as produced by `json.loads`: the shapes `_walk_for_urls`
distinguishes. -/
inductive PyVal where
  | str : String → PyVal
  | num : Int → PyVal
  | boolean : Bool → PyVal
  | null : PyVal
  | list : List PyVal → PyVal
  | dict : List (String × PyVal) → PyVal

mutual

/-- Lines 98-107: collect, in traversal order, every string leaf that
starts with `http://` or `https://` (`walkValues` and `walkPairs` walk a
list's elements and a dict's values, mirroring the two `for` loops). -/
def _walk_for_urls : PyVal → List String
  | PyVal.str s =>
      if pyStartswith s "http://" || pyStartswith s "https://" then [s] else []
  | PyVal.num _ => []
  | PyVal.boolean _ => []
  | PyVal.null => []
  | PyVal.list vs => walkValues vs
  | PyVal.dict kvs => walkPairs kvs

def walkValues : List PyVal → List String
  | [] => []
  | v :: vs => _walk_for_urls v ++ walkValues vs

def walkPairs : List (String × PyVal) → List String
  | [] => []
  | (_, v) :: kvs => _walk_for_urls v ++ walkPairs kvs

end

/-! ## The raw-markup regex scan -/

/-- Characters matched by `[A-Za-z0-9]`. -/
def isAlnumAscii (c : Char) : Bool :=
  (decide ('A' ≤ c) && decide (c ≤ 'Z'))
  || (decide ('a' ≤ c) && decide (c ≤ 'z'))
  || (decide ('0' ≤ c) && decide (c ≤ '9'))

/-- Characters matched by Python's regex class `[^\s"']` (ASCII whitespace;
the program's URLs contain no other whitespace code points). -/
def notSpaceQuote (c : Char) : Bool :=
  !(c == ' ' || c == Char.ofNat 9 || c == Char.ofNat 10 || c == Char.ofNat 13
    || c == Char.ofNat 11 || c == Char.ofNat 12
    || c == Char.ofNat 34 || c == Char.ofNat 39)

/-- Fuel-indexed scanner for `re.findall` of a pattern of the shape
"literal, then one-or-more characters of a class": leftmost matches,
greedy class run, continue after each match.  `fuel` at least the length
of the haystack makes it exact for a non-empty literal. -/
def findAllAux (pre : List Char) (cls : Char → Bool) :
    Nat → List Char → List String
  | _, [] => []
  | 0, _ => []
  | Nat.succ fuel, c :: rest =>
    if pre.isPrefixOf (c :: rest) then
      let after := (c :: rest).drop pre.length
      let run := after.takeWhile cls
      if run.isEmpty then findAllAux pre cls fuel rest
      else String.mk (pre ++ run) :: findAllAux pre cls fuel (after.dropWhile cls)
    else findAllAux pre cls fuel rest

/-- `re.findall` for the four GoComics asset patterns. -/
def findAll (pre : String) (cls : Char → Bool) (hay : String) : List String :=
  findAllAux pre.data cls hay.data.length hay.data

/-- Lines 143-152: the four raw-markup patterns, matches pooled in pattern
order (`urls.extend` per pattern). -/
def gocomics_regex_matches (html : String) : List String :=
  findAll "https://assets.amuniversal.com/" isAlnumAscii html
  ++ findAll "https://featureassets.gocomics.com/assets/" notSpaceQuote html
  ++ findAll "https://gocomicscmsassets.gocomics.com/" notSpaceQuote html
  ++ findAll "https://featureassets.amuniversal.com/assets/" notSpaceQuote html

/-! ## Candidate selection -/

/-- One comparison step of the descending stable sort's choice of front
element: keep the earlier candidate unless the later one scores strictly
higher. -/
def pickBetter (b v : String) : String :=
  if _candidate_score b < _candidate_score v then v else b

/-- Models `urls.sort(key=_candidate_score, reverse=True)` followed by
`urls[0]`: Python's sort is stable, so the element returned is the first
one attaining the maximal score (`none` exactly when the list is empty,
the `if urls:` guard). -/
def bestCandidate : List String → Option String
  | [] => Option.none
  | u :: us => some (List.foldl pickBetter u us)

/-! ## `fetch_gocomics_strip_image_url` -/

/-- Lines 125-134: the host filter with the hard social-card exclusion
applied to the `__NEXT_DATA__` URLs. -/
def gocomics_host_filter (u : String) : Bool :=
  (pyContains u "assets.amuniversal.com/"
    || pyContains u "featureassets.gocomics.com/assets/"
    || pyContains u "gocomicscmsassets.gocomics.com/"
    || pyContains u "featureassets.amuniversal.com/assets/")
  && !(_is_social_card u)

/-- The candidates the structured-payload strategy keeps.  `nextData` is
the parsed content of the `__NEXT_DATA__` script: `none` when the tag is
absent, has no string body, or `json.loads` raises (the `except: pass`). -/
def gocomics_json_candidates (nextData : Option PyVal) : List String :=
  match nextData with
  | Option.none => []
  | some data => (_walk_for_urls data).filter gocomics_host_filter

/-- Line 154: the regex matches surviving the social-card exclusion. -/
def gocomics_regex_candidates (html : String) : List String :=
  (gocomics_regex_matches html).filter (fun u => !(_is_social_card u))

/-- Every URL either strategy surfaces, before any exclusion. -/
def gocomics_raw_candidates (nextData : Option PyVal) (html : String) : List String :=
  (match nextData with
   | Option.none => []
   | some data => _walk_for_urls data)
  ++ gocomics_regex_matches html

/-- Lines 110-159 after the page fetch succeeded: first the `__NEXT_DATA__`
strategy (returning its best survivor when it has any), otherwise the
raw-markup regex strategy, otherwise the `RuntimeError`. -/
def fetch_gocomics_strip_image_url (nextData : Option PyVal) (html : String) :
    Except String String :=
  match bestCandidate (gocomics_json_candidates nextData) with
  | some u => Except.ok u
  | Option.none =>
    match bestCandidate (gocomics_regex_candidates html) with
    | some u => Except.ok u
    | Option.none =>
      Except.error "GoComics: could not find strip image URL (markup changed?)"

/-! ## `fetch_farside_image_url` and its URL normalizer -/

/-- Lines 180-187: the per-candidate cleaning loop of
`fetch_farside_image_url` (protocol-relative and site-relative URL
resolution). -/
def farside_clean_url (u : String) : String :=
  if pyStartswith u "//" then "https:" ++ u
  else if pyStartswith u "/" then "https://www.thefarside.com" ++ u
  else u

/-- The URL Normalizer as the specification words it, including its rule
(1): un-escape backslash-escaped forward slashes and the `&amp;` entity
before the relative-URL rules.  Stated only to be compared with
`farside_clean_url`, the normalizer actually in the source. -/
def spec_normalize_url (u : String) : String :=
  let u1 := pyReplace (pyReplace u "\\/" "/") "&amp;" "&"
  if pyStartswith u1 "//" then "https:" ++ u1
  else if pyStartswith u1 "/" then "https://www.thefarside.com" ++ u1
  else u1

/-- Lines 162-195 after the page fetch succeeded: `candidates` are the
contents of the `og:image` / `twitter:image` / `twitter:image:src` meta
tags in document lookup order. -/
def fetch_farside_image_url (candidates : List String) : Except String String :=
  match (candidates.map farside_clean_url).filter
      (fun u => !(u == "") && !(pyContains (pyLower u) "logo")) with
  | u :: _ => Except.ok u
  | [] => Except.error "The Far Side: could not find image URL via og/twitter meta tags"

/-! ## `_guess_ext` and `download_and_host_image` -/

/-- Modelled: the path component `urllib.parse.urlparse` returns for the
absolute http(s) URLs this program downloads — the part after the
authority, cut at a query or fragment. -/
def urlPath (url : String) : String :=
  match restAfterColonSlashSlash url.data with
  | some rest =>
      String.mk ((rest.dropWhile (fun c => !(c == '/'))).takeWhile
        (fun c => !(c == '?' || c == '#')))
  | Option.none =>
      String.mk (url.data.takeWhile (fun c => !(c == '?' || c == '#')))
where
  /-- The suffix after the first occurrence of `://`, if any. -/
  restAfterColonSlashSlash : List Char → Option (List Char)
  | [] => Option.none
  | c :: rest =>
    if [':', '/', '/'].isPrefixOf (c :: rest) then some ((c :: rest).drop 3)
    else restAfterColonSlashSlash rest

/-- Lines 207-212: guess the cached file's extension from the URL path. -/
def _guess_ext (url : String) : String :=
  let path := pyLower (urlPath url)
  if pyContains path ".png" then ".png"
  else if pyContains path ".jpg" then ".jpg"
  else if pyContains path ".jpeg" then ".jpg"
  else if pyContains path ".gif" then ".gif"
  else if pyContains path ".webp" then ".webp"
  else ".jpg"

/-- The cache filename `f"{slug}-{day}-{h}{ext}"`; `hash` abstracts
`hashlib.sha1(...).hexdigest()[:12]` (a fixed deterministic function of
the URL). -/
def cacheFilename (hash : String → String) (img_url slug day : String) : String :=
  slug ++ "-" ++ day ++ "-" ++ hash img_url ++ _guess_ext img_url

/-- Lines 215-229.  `pagesBase` abstracts `pages_base_url()` (constant
within a run), `hash` the SHA-1 digest, `fetchBytes` the HTTP GET of the
image (its `Except.error` models `raise_for_status` / transport errors),
and `files` the set of filenames already present in `docs/images`.  The
result carries the public URL, the directory contents after the call, and
the number of network fetches the call performed. -/
def download_and_host_image (pagesBase : String) (hash : String → String)
    (fetchBytes : String → Except String String)
    (img_url slug day : String) (files : List String) :
    Except String (String × List String × Nat) :=
  if cacheFilename hash img_url slug day ∈ files then
    Except.ok (pagesBase ++ "/images/" ++ cacheFilename hash img_url slug day, files, 0)
  else
    match fetchBytes img_url with
    | Except.error e => Except.error e
    | Except.ok _ =>
        Except.ok (pagesBase ++ "/images/" ++ cacheFilename hash img_url slug day,
          files ++ [cacheFilename hash img_url slug day], 1)

/-! ## The orchestrator (`main`) -/

/-- Lines 13-18: one configured comic. -/
structure Comic where
  name : String
  slug : String
  url : String
deriving DecidableEq

def garfieldC : Comic :=
  { name := "Garfield", slug := "garfield", url := "https://www.gocomics.com/garfield" }

def peanutsC : Comic :=
  { name := "Peanuts", slug := "peanuts", url := "https://www.gocomics.com/peanuts" }

def calvinC : Comic :=
  { name := "Calvin and Hobbes", slug := "calvinandhobbes",
    url := "https://www.gocomics.com/calvinandhobbes" }

def farsideC : Comic :=
  { name := "The Far Side", slug := "farside", url := "https://www.thefarside.com/" }

def COMICS : List Comic := [garfieldC, peanutsC, calvinC, farsideC]

/-- One feed entry as built by `main` (lines 252-262 and 270-277). -/
structure Entry where
  id : String
  title : String
  link : String
  date : String
  img : String
  html : String
deriving DecidableEq

/-- The persisted state: the `seen` dict (insertion-ordered association
list, Python dict semantics for `get` and item assignment) and the entry
history. -/
structure RunState where
  seen : List (String × String)
  history : List Entry
deriving DecidableEq

def emptyState : RunState := { seen := [], history := [] }

/-- Python `d.get(k)`. -/
def dictGet (d : List (String × String)) (k : String) : Option String :=
  match d with
  | [] => Option.none
  | (k', v) :: rest => if k' = k then some v else dictGet rest k

/-- Python `d[k] = v`: overwrite in place, else append. -/
def dictSet (d : List (String × String)) (k v : String) : List (String × String) :=
  match d with
  | [] => [(k, v)]
  | (k', v') :: rest => if k' = k then (k, v) :: rest else (k', v') :: dictSet rest k v

/-- The dedup key `f"{slug}:{today}"`. -/
def dedupKey (slug today : String) : String := slug ++ ":" ++ today

/-- Lines 252-262: the entry for a successfully processed comic. -/
def successEntry (c : Comic) (today nowIso hosted : String) : Entry :=
  { id := dedupKey c.slug today
    title := c.name ++ " - " ++ today
    link := c.url
    date := nowIso
    img := hosted
    html := "<p><a href=\"" ++ c.url ++ "\">" ++ c.name ++ "</a></p>"
      ++ "<p><img src=\"" ++ hosted ++ "\" /></p>" }

/-- Lines 268-277: the link-only entry recorded when the comic's iteration
raised. -/
def fallbackEntry (c : Comic) (today nowIso : String) : Entry :=
  { id := dedupKey c.slug today
    title := c.name ++ " - " ++ today
    link := c.url
    date := nowIso
    img := ""
    html := "<p><a href=\"" ++ c.url ++ "\">" ++ c.name
      ++ "</a></p><p>(No image today)</p>" }

/-- Lines 240-278, one iteration of the per-comic loop.  `fetchImg`
abstracts `fetch_strip_image_url` (page fetch, dispatch and extraction;
`Except.error` is any exception it raises), `hostImg` abstracts
`download_and_host_image` (`Except.error` is a transport or filesystem
error).  Returns the updated `seen` dict and the new items this comic
contributed. -/
def stepComic (fetchImg : String → Except String String)
    (hostImg : String → String → String → Except String String)
    (today nowIso : String) (c : Comic) (seen : List (String × String)) :
    List (String × String) × List Entry :=
  match fetchImg c.url with
  | Except.error _ => (seen, [fallbackEntry c today nowIso])
  | Except.ok real =>
    if c.slug ≠ "calvinandhobbes" ∧ dictGet seen (dedupKey c.slug today) = some real then
      (seen, [])
    else
      match hostImg real c.slug today with
      | Except.error _ => (seen, [fallbackEntry c today nowIso])
      | Except.ok hosted =>
          (dictSet seen (dedupKey c.slug today) real, [successEntry c today nowIso hosted])

/-- The per-comic loop over a list of comics: threads `seen`, concatenates
the new items in loop order. -/
def runComics (fetchImg : String → Except String String)
    (hostImg : String → String → String → Except String String)
    (today nowIso : String) :
    List Comic → List (String × String) → List (String × String) × List Entry
  | [], seen => (seen, [])
  | c :: cs, seen =>
    ((runComics fetchImg hostImg today nowIso cs
        (stepComic fetchImg hostImg today nowIso c seen).1).1,
      (stepComic fetchImg hostImg today nowIso c seen).2
        ++ (runComics fetchImg hostImg today nowIso cs
             (stepComic fetchImg hostImg today nowIso c seen).1).2)

/-- Lines 232-282, `main` after `load_state`: run the loop over `COMICS`,
prepend the new items, truncate the history to 90.  The returned state is
what `save_state` persists, and its `history` is what `build_feed`
serializes — both always execute, whatever the per-comic outcomes. -/
def runMain (fetchImg : String → Except String String)
    (hostImg : String → String → String → Except String String)
    (today nowIso : String) (st : RunState) : RunState :=
  { seen := (runComics fetchImg hostImg today nowIso COMICS st.seen).1
    history :=
      ((runComics fetchImg hostImg today nowIso COMICS st.seen).2 ++ st.history).take 90 }

end MakeFeed

namespace MakeFeed

/-! ## Concrete inputs used by witnesses and counterexamples -/

/-- A payload whose only asset-host URL is a low-scoring CMS asset. -/
def c2NextData : Option PyVal :=
  some (PyVal.str "https://gocomicscmsassets.gocomics.com/low.jpg")

/-- Markup that carries a top-scoring direct strip-asset URL outside the
structured payload. -/
def c2Html : String := "<img src=\"https://assets.amuniversal.com/abcdef123\" />"

/-- A payload whose only URL is a social-share decoy. -/
def c1NextData : Option PyVal :=
  some (PyVal.str "https://assets.amuniversal.com/GC_Social_FB_promo")

/-- Markup whose only asset-host URL is a social-share decoy. -/
def c1Html : String := "x https://gocomicscmsassets.gocomics.com/GC_Social_card.png y"

/-- An extraction oracle: succeeds for the Garfield page only. -/
def wFetch : String → Except String String := fun u =>
  if u == "https://www.gocomics.com/garfield" then
    Except.ok "https://assets.amuniversal.com/g1"
  else Except.error "boom"

/-- A hosting oracle that always succeeds. -/
def wHost : String → String → String → Except String String := fun _ _ _ =>
  Except.ok "https://mclars27.github.io/my-comics-rss/images/g.gif"

/-- A hosting oracle that always fails (e.g. a filesystem error). -/
def wHostFail : String → String → String → Except String String := fun _ _ _ =>
  Except.error "disk"

/-- An extraction oracle that always fails with a transport error. -/
def failFetch : String → Except String String := fun _ => Except.error "network down"

/-- A `seen` state that already records today's Garfield URL. -/
def seenGarfieldState : RunState :=
  { seen := [("garfield:2024-01-01", "https://assets.amuniversal.com/g1")], history := [] }

end MakeFeed

namespace MakeFeed

/-! ## Candidate-selection lemmas -/

theorem foldl_pickBetter_mem (u : String) (us : List String) :
    List.foldl pickBetter u us = u ∨ List.foldl pickBetter u us ∈ us := by
  induction us generalizing u with
  | nil => exact Or.inl rfl
  | cons v vs ih =>
    simp only [List.foldl_cons]
    rcases ih (pickBetter u v) with h | h
    · rw [h]
      unfold pickBetter
      split
      · exact Or.inr (List.mem_cons_self _ _)
      · exact Or.inl rfl
    · exact Or.inr (List.mem_cons_of_mem _ h)

theorem foldl_pickBetter_score (u : String) (us : List String) :
    _candidate_score u ≤ _candidate_score (List.foldl pickBetter u us) ∧
      ∀ v ∈ us, _candidate_score v ≤ _candidate_score (List.foldl pickBetter u us) := by
  induction us generalizing u with
  | nil => exact ⟨le_refl _, by simp⟩
  | cons v vs ih =>
    simp only [List.foldl_cons]
    obtain ⟨h1, h2⟩ := ih (pickBetter u v)
    have hu : _candidate_score u ≤ _candidate_score (pickBetter u v) := by
      unfold pickBetter
      split
      · exact le_of_lt (by assumption)
      · exact le_refl _
    have hv : _candidate_score v ≤ _candidate_score (pickBetter u v) := by
      unfold pickBetter
      split
      · exact le_refl _
      · exact le_of_not_lt (by assumption)
    refine ⟨le_trans hu h1, ?_⟩
    intro w hw
    rcases List.mem_cons.mp hw with h | h
    · subst h
      exact le_trans hv h1
    · exact h2 w h

theorem bestCandidate_mem {l : List String} {u : String}
    (h : bestCandidate l = some u) : u ∈ l := by
  cases l with
  | nil => exact absurd h (by simp [bestCandidate])
  | cons v vs =>
    have := foldl_pickBetter_mem v vs
    have hu : List.foldl pickBetter v vs = u := by
      simpa [bestCandidate] using h
    rcases this with h' | h'
    · exact (hu ▸ h') ▸ List.mem_cons_self _ _
    · exact List.mem_cons_of_mem _ (hu ▸ h')

theorem bestCandidate_score {l : List String} {u : String}
    (h : bestCandidate l = some u) :
    ∀ v ∈ l, _candidate_score v ≤ _candidate_score u := by
  cases l with
  | nil => exact absurd h (by simp [bestCandidate])
  | cons v vs =>
    have hu : List.foldl pickBetter v vs = u := by
      simpa [bestCandidate] using h
    obtain ⟨h1, h2⟩ := foldl_pickBetter_score v vs
    intro w hw
    rcases List.mem_cons.mp hw with h' | h'
    · exact hu ▸ h' ▸ h1
    · exact hu ▸ h2 w h'

theorem bestCandidate_isSome {l : List String} (h : l ≠ []) :
    ∃ u, bestCandidate l = some u := by
  cases l with
  | nil => exact absurd rfl h
  | cons v vs => exact ⟨_, rfl⟩

/-! ## Social-card exclusion lemmas -/

theorem not_social_contains {u : String} (h : _is_social_card u = false) :
    pyContains u "GC_Social_" = false := by
  have := h
  unfold _is_social_card at this
  exact (Bool.or_eq_false_iff.mp this).2

theorem not_social_of_mem_json {nd : Option PyVal} {u : String}
    (h : u ∈ gocomics_json_candidates nd) : _is_social_card u = false := by
  cases nd with
  | none => simp [gocomics_json_candidates] at h
  | some d =>
    unfold gocomics_json_candidates at h
    have hf := (List.mem_filter.mp h).2
    unfold gocomics_host_filter at hf
    rw [Bool.and_eq_true] at hf
    simpa using hf.2

theorem not_social_of_mem_regex {html : String} {u : String}
    (h : u ∈ gocomics_regex_candidates html) : _is_social_card u = false := by
  unfold gocomics_regex_candidates at h
  have hf := (List.mem_filter.mp h).2
  simpa using hf

end MakeFeed

namespace MakeFeed

theorem bestCandidate_of_eq_none {l : List String}
    (h : bestCandidate l = Option.none) : l = [] := by
  cases l with
  | nil => rfl
  | cons v vs => exact absurd h (by simp [bestCandidate])

/-- C1: the GoComics extractor never returns a social-share decoy (a URL
containing `GC_Social_`), whatever strategy surfaced it; and when every
candidate either strategy surfaces is a decoy, it fails with the
no-image-found error instead of returning one. -/
theorem gocomics_no_social_card (nextData : Option PyVal) (html : String) :
    (∀ u, fetch_gocomics_strip_image_url nextData html = Except.ok u →
        _is_social_card u = false ∧ pyContains u "GC_Social_" = false) ∧
    ((∀ u ∈ gocomics_raw_candidates nextData html, _is_social_card u = true) →
        fetch_gocomics_strip_image_url nextData html =
          Except.error "GoComics: could not find strip image URL (markup changed?)") := by
  constructor
  · intro u hu
    unfold fetch_gocomics_strip_image_url at hu
    split at hu
    · rename_i u1 heq
      injection hu with h1
      subst h1
      have hs := not_social_of_mem_json (bestCandidate_mem heq)
      exact ⟨hs, not_social_contains hs⟩
    · split at hu
      · rename_i u2 heq2
        injection hu with h1
        subst h1
        have hs := not_social_of_mem_regex (bestCandidate_mem heq2)
        exact ⟨hs, not_social_contains hs⟩
      · exact Except.noConfusion hu
  · intro hall
    have hj : gocomics_json_candidates nextData = [] := by
      cases nextData with
      | none => rfl
      | some d =>
        unfold gocomics_json_candidates
        apply List.filter_eq_nil_iff.mpr
        intro a ha
        have hs := hall a (List.mem_append_left _ ha)
        unfold gocomics_host_filter
        simp [hs]
    have hr : gocomics_regex_candidates html = [] := by
      unfold gocomics_regex_candidates
      apply List.filter_eq_nil_iff.mpr
      intro a ha
      have hs := hall a (List.mem_append_right _ ha)
      simp [hs]
    unfold fetch_gocomics_strip_image_url
    rw [hj, hr]
    exact rfl

/-- Witness for C1: a page whose only candidates (one per strategy) are
social-share decoys makes the extractor fail instead of returning one. -/
theorem gocomics_no_social_card_witness :
    fetch_gocomics_strip_image_url c1NextData c1Html =
      Except.error "GoComics: could not find strip image URL (markup changed?)" :=
  (gocomics_no_social_card c1NextData c1Html).2 (by decide)

/-- C2 counterexample: the extractor returns the structured-payload
candidate scoring 40 although the pooled strategies also surface a
raw-markup candidate scoring 100, so it does not return the highest-scored
candidate of the pooled set. -/
theorem gocomics_not_pooled_best :
    fetch_gocomics_strip_image_url c2NextData c2Html =
        Except.ok "https://gocomicscmsassets.gocomics.com/low.jpg" ∧
    "https://assets.amuniversal.com/abcdef123"
        ∈ gocomics_json_candidates c2NextData ++ gocomics_regex_candidates c2Html ∧
    _candidate_score "https://gocomicscmsassets.gocomics.com/low.jpg" <
      _candidate_score "https://assets.amuniversal.com/abcdef123" :=
  ⟨rfl, by decide, by decide⟩

/-- C2 (amended): the extractor tries its two strategies in order with
early return — if the structured payload yields any surviving candidate it
returns the best-scored one of that pool alone, independent of the rest of
the markup; only otherwise does it return the best-scored survivor of the
raw-markup regex pool; it fails exactly when both pools are empty. -/
theorem gocomics_strategy_precedence (nextData : Option PyVal) (html html2 : String) :
    (gocomics_json_candidates nextData ≠ [] →
      ∀ u, fetch_gocomics_strip_image_url nextData html = Except.ok u →
        u ∈ gocomics_json_candidates nextData ∧
        (∀ v ∈ gocomics_json_candidates nextData,
            _candidate_score v ≤ _candidate_score u) ∧
        fetch_gocomics_strip_image_url nextData html2 = Except.ok u) ∧
    (gocomics_json_candidates nextData = [] →
      ∀ u, fetch_gocomics_strip_image_url nextData html = Except.ok u →
        u ∈ gocomics_regex_candidates html ∧
        ∀ v ∈ gocomics_regex_candidates html,
          _candidate_score v ≤ _candidate_score u) ∧
    ((gocomics_json_candidates nextData = [] ∧ gocomics_regex_candidates html = []) ↔
      fetch_gocomics_strip_image_url nextData html =
        Except.error "GoComics: could not find strip image URL (markup changed?)") := by
  rcases hj : bestCandidate (gocomics_json_candidates nextData) with _ | u1
  · have hjnil := bestCandidate_of_eq_none hj
    rcases hr : bestCandidate (gocomics_regex_candidates html) with _ | u2
    · have hrnil := bestCandidate_of_eq_none hr
      have hf : fetch_gocomics_strip_image_url nextData html =
          Except.error "GoComics: could not find strip image URL (markup changed?)" := by
        unfold fetch_gocomics_strip_image_url
        rw [hj, hr]
      refine ⟨?_, ?_, ?_⟩
      · intro hne
        exact absurd hjnil hne
      · intro _ u hu
        rw [hf] at hu
        exact Except.noConfusion hu
      · exact ⟨fun _ => hf, fun _ => ⟨hjnil, hrnil⟩⟩
    · have hf : fetch_gocomics_strip_image_url nextData html = Except.ok u2 := by
        unfold fetch_gocomics_strip_image_url
        rw [hj, hr]
      refine ⟨?_, ?_, ?_⟩
      · intro hne
        exact absurd hjnil hne
      · intro _ u hu
        rw [hf] at hu
        injection hu with h1
        subst h1
        exact ⟨bestCandidate_mem hr, bestCandidate_score hr⟩
      · constructor
        · intro h12
          rw [h12.2] at hr
          exact absurd hr (by simp [bestCandidate])
        · intro herr
          rw [hf] at herr
          exact Except.noConfusion herr
  · have hf : fetch_gocomics_strip_image_url nextData html = Except.ok u1 := by
      unfold fetch_gocomics_strip_image_url
      rw [hj]
    have hf2 : fetch_gocomics_strip_image_url nextData html2 = Except.ok u1 := by
      unfold fetch_gocomics_strip_image_url
      rw [hj]
    refine ⟨?_, ?_, ?_⟩
    · intro _ u hu
      rw [hf] at hu
      injection hu with h1
      subst h1
      exact ⟨bestCandidate_mem hj, bestCandidate_score hj, hf2⟩
    · intro hnil
      rw [hnil] at hj
      exact absurd hj (by simp [bestCandidate])
    · constructor
      · intro h12
        rw [h12.1] at hj
        exact absurd hj (by simp [bestCandidate])
      · intro herr
        rw [hf] at herr
        exact Except.noConfusion herr

/-- Witness for C2's amended theorem: with a non-empty structured-payload
pool the returned candidate does not depend on the rest of the markup. -/
theorem gocomics_strategy_precedence_witness :
    fetch_gocomics_strip_image_url c2NextData "unrelated markup" =
      Except.ok "https://gocomicscmsassets.gocomics.com/low.jpg" :=
  ((gocomics_strategy_precedence c2NextData c2Html "unrelated markup").1
    (by decide) "https://gocomicscmsassets.gocomics.com/low.jpg" rfl).2.2

end MakeFeed

namespace MakeFeed

/-! ## URL-normalizer lemmas (C8, C9) -/

theorem pyStartswith_slash_false {s : String} {c : Char} {l : List Char}
    (h : s.data = c :: l) (hc : ('/' == c) = false) :
    pyStartswith s "//" = false ∧ pyStartswith s "/" = false := by
  have h2 : ("//" : String).data = ['/', '/'] := rfl
  have h1 : ("/" : String).data = ['/'] := rfl
  constructor
  · unfold pyStartswith
    rw [h, h2]
    simp [List.isPrefixOf, hc]
  · unfold pyStartswith
    rw [h, h1]
    simp [List.isPrefixOf, hc]

/-- C9: the URL normalizer of `fetch_farside_image_url` is idempotent —
normalizing twice equals normalizing once, so an already-normalized URL
passes through unchanged. -/
theorem farside_clean_url_idem (u : String) :
    farside_clean_url (farside_clean_url u) = farside_clean_url u := by
  cases h1 : pyStartswith u "//" with
  | true =>
    have hd : ("https:" ++ u).data = 'h' :: (['t', 't', 'p', 's', ':'] ++ u.data) := by
      rw [String.data_append]
      rfl
    obtain ⟨ha, hb⟩ := pyStartswith_slash_false hd (by decide)
    simp [farside_clean_url, h1, ha, hb]
  | false =>
    cases h2 : pyStartswith u "/" with
    | true =>
      have hd : ("https://www.thefarside.com" ++ u).data =
          'h' :: (['t', 't', 'p', 's', ':', '/', '/', 'w', 'w', 'w', '.', 't', 'h', 'e',
            'f', 'a', 'r', 's', 'i', 'd', 'e', '.', 'c', 'o', 'm'] ++ u.data) := by
        rw [String.data_append]
        rfl
      obtain ⟨ha, hb⟩ := pyStartswith_slash_false hd (by decide)
      simp [farside_clean_url, h1, h2, ha, hb]
    | false =>
      simp [farside_clean_url, h1, h2]

/-- C8 counterexample: the normalizer in the source passes an
ampersand-entity-escaped URL through unchanged, while the spec's rule (1)
would un-escape it — no unescaping step exists in the code. -/
theorem normalizer_no_unescape :
    farside_clean_url "https://a.com/x&amp;y" = "https://a.com/x&amp;y" ∧
    spec_normalize_url "https://a.com/x&amp;y" = "https://a.com/x&y" ∧
    ("https://a.com/x&amp;y" : String) ≠ "https://a.com/x&y" :=
  ⟨rfl, by decide, by decide⟩

/-- C8 (amended): the normalizer applies, in order and with no unescaping
step: scheme-relative `//` gets `https:`, a single leading `/` gets the
Far Side origin, and anything else passes through unchanged. -/
theorem farside_clean_url_cases (u : String) :
    (pyStartswith u "//" = true → farside_clean_url u = "https:" ++ u) ∧
    (pyStartswith u "//" = false → pyStartswith u "/" = true →
      farside_clean_url u = "https://www.thefarside.com" ++ u) ∧
    (pyStartswith u "//" = false → pyStartswith u "/" = false →
      farside_clean_url u = u) := by
  refine ⟨?_, ?_, ?_⟩
  · intro h1
    simp [farside_clean_url, h1]
  · intro h1 h2
    simp [farside_clean_url, h1, h2]
  · intro h1 h2
    simp [farside_clean_url, h1, h2]

/-- Witness for C8's amended theorem on one input per rule. -/
theorem farside_clean_url_cases_witness :
    farside_clean_url "//cdn.x/p.png" = "https:" ++ "//cdn.x/p.png" ∧
    farside_clean_url "/img/p.png" = "https://www.thefarside.com" ++ "/img/p.png" ∧
    farside_clean_url "https://x/p.png" = "https://x/p.png" :=
  ⟨(farside_clean_url_cases "//cdn.x/p.png").1 (by decide),
   (farside_clean_url_cases "/img/p.png").2.1 (by decide) (by decide),
   (farside_clean_url_cases "https://x/p.png").2.2 (by decide) (by decide)⟩

/-! ## Image-cache idempotence (C7) -/

/-- C7: with the cache file not yet present and the image fetch
succeeding, calling the Image Cache twice with the same URL, slug and date
returns the identical public path both times, performs exactly one network
fetch in total (one on the first call, zero on the second), and writes the
file exactly once (the directory gains the one filename on the first call
and is untouched by the second). -/
theorem download_idempotent (pagesBase : String) (hash : String → String)
    (fetchBytes : String → Except String String) (img_url slug day : String)
    (files : List String) (fn content : String)
    (hfn : fn = cacheFilename hash img_url slug day)
    (habs : fn ∉ files)
    (hfetch : fetchBytes img_url = Except.ok content) :
    download_and_host_image pagesBase hash fetchBytes img_url slug day files =
      Except.ok (pagesBase ++ "/images/" ++ fn, files ++ [fn], 1) ∧
    download_and_host_image pagesBase hash fetchBytes img_url slug day (files ++ [fn]) =
      Except.ok (pagesBase ++ "/images/" ++ fn, files ++ [fn], 0) := by
  subst hfn
  constructor
  · unfold download_and_host_image
    rw [if_neg habs, hfetch]
  · unfold download_and_host_image
    rw [if_pos (List.mem_append_right _ (List.mem_singleton_self _))]

/-- Witness for C7 on a fresh cache directory. -/
theorem download_idempotent_witness :
    download_and_host_image "https://mclars27.github.io/my-comics-rss"
        (fun _ => "0123456789ab") (fun _ => Except.ok "bytes")
        "https://assets.amuniversal.com/pic.png" "garfield" "2024-01-01" [] =
      Except.ok ("https://mclars27.github.io/my-comics-rss" ++ "/images/"
          ++ "garfield-2024-01-01-0123456789ab.png",
        [] ++ ["garfield-2024-01-01-0123456789ab.png"], 1) ∧
    download_and_host_image "https://mclars27.github.io/my-comics-rss"
        (fun _ => "0123456789ab") (fun _ => Except.ok "bytes")
        "https://assets.amuniversal.com/pic.png" "garfield" "2024-01-01"
        ([] ++ ["garfield-2024-01-01-0123456789ab.png"]) =
      Except.ok ("https://mclars27.github.io/my-comics-rss" ++ "/images/"
          ++ "garfield-2024-01-01-0123456789ab.png",
        [] ++ ["garfield-2024-01-01-0123456789ab.png"], 0) :=
  download_idempotent "https://mclars27.github.io/my-comics-rss"
    (fun _ => "0123456789ab") (fun _ => Except.ok "bytes")
    "https://assets.amuniversal.com/pic.png" "garfield" "2024-01-01" []
    "garfield-2024-01-01-0123456789ab.png" "bytes" (by decide) (by simp) rfl

end MakeFeed

namespace MakeFeed

/-! ## Dict (`seen`) lemmas -/

theorem dictGet_dictSet_self (d : List (String × String)) (k v : String) :
    dictGet (dictSet d k v) k = some v := by
  induction d with
  | nil => simp [dictSet, dictGet]
  | cons p rest ih =>
    obtain ⟨k', v'⟩ := p
    by_cases h : k' = k
    · subst h
      simp [dictSet, dictGet]
    · simp [dictSet, dictGet, h, ih]

theorem dictGet_dictSet_ne (d : List (String × String)) (k v k₀ : String)
    (h : k ≠ k₀) : dictGet (dictSet d k v) k₀ = dictGet d k₀ := by
  induction d with
  | nil => simp [dictSet, dictGet, h]
  | cons p rest ih =>
    obtain ⟨k', v'⟩ := p
    by_cases h' : k' = k
    · subst h'
      simp [dictSet, dictGet, h]
    · simp [dictSet, dictGet, h', ih]

/-! ## Per-comic step lemmas -/

section Orchestrator

variable (fI : String → Except String String)
variable (hI : String → String → String → Except String String)
variable (today nowIso : String)

theorem stepComic_fetch_err (c : Comic) (seen : List (String × String)) (err : String)
    (h : fI c.url = Except.error err) :
    stepComic fI hI today nowIso c seen = (seen, [fallbackEntry c today nowIso]) := by
  unfold stepComic
  split
  · rfl
  · rename_i real heq
    rw [h] at heq
    exact Except.noConfusion heq

theorem stepComic_skip (c : Comic) (seen : List (String × String)) (real : String)
    (hf : fI c.url = Except.ok real)
    (hs : c.slug ≠ "calvinandhobbes" ∧ dictGet seen (dedupKey c.slug today) = some real) :
    stepComic fI hI today nowIso c seen = (seen, []) := by
  unfold stepComic
  split
  · rename_i err heq
    rw [hf] at heq
    exact Except.noConfusion heq
  · rename_i real' heq
    rw [hf] at heq
    injection heq with h'
    subst h'
    rw [if_pos hs]

theorem stepComic_host_err (c : Comic) (seen : List (String × String)) (real err : String)
    (hf : fI c.url = Except.ok real)
    (hs : ¬(c.slug ≠ "calvinandhobbes" ∧ dictGet seen (dedupKey c.slug today) = some real))
    (hh : hI real c.slug today = Except.error err) :
    stepComic fI hI today nowIso c seen = (seen, [fallbackEntry c today nowIso]) := by
  unfold stepComic
  split
  · rfl
  · rename_i real' heq
    rw [hf] at heq
    injection heq with h'
    subst h'
    rw [if_neg hs]
    split
    · rfl
    · rename_i hosted heq2
      rw [hh] at heq2
      exact Except.noConfusion heq2

theorem stepComic_success (c : Comic) (seen : List (String × String)) (real hosted : String)
    (hf : fI c.url = Except.ok real)
    (hs : ¬(c.slug ≠ "calvinandhobbes" ∧ dictGet seen (dedupKey c.slug today) = some real))
    (hh : hI real c.slug today = Except.ok hosted) :
    stepComic fI hI today nowIso c seen =
      (dictSet seen (dedupKey c.slug today) real, [successEntry c today nowIso hosted]) := by
  unfold stepComic
  split
  · rename_i err' heq
    rw [hf] at heq
    exact Except.noConfusion heq
  · rename_i real' heq
    rw [hf] at heq
    injection heq with h'
    subst h'
    rw [if_neg hs]
    split
    · rename_i err' heq2
      rw [hh] at heq2
      exact Except.noConfusion heq2
    · rename_i hosted' heq2
      rw [hh] at heq2
      injection heq2 with h''
      subst h''
      rfl

theorem stepComic_items_id (c : Comic) (seen : List (String × String)) :
    ∀ e ∈ (stepComic fI hI today nowIso c seen).2, e.id = dedupKey c.slug today := by
  intro e he
  unfold stepComic at he
  split at he
  · simp at he
    subst he
    rfl
  · split at he
    · simp at he
    · split at he
      · simp at he
        subst he
        rfl
      · simp at he
        subst he
        rfl

theorem stepComic_items_length (c : Comic) (seen : List (String × String)) :
    (stepComic fI hI today nowIso c seen).2.length ≤ 1 := by
  unfold stepComic
  split
  · simp
  · split
    · simp
    · split <;> simp

theorem stepComic_seen_get_ne (c : Comic) (seen : List (String × String)) (k : String)
    (h : dedupKey c.slug today ≠ k) :
    dictGet (stepComic fI hI today nowIso c seen).1 k = dictGet seen k := by
  unfold stepComic
  split
  · rfl
  · split
    · rfl
    · split
      · rfl
      · exact dictGet_dictSet_ne seen _ _ k h

/-! ## Loop lemmas -/

theorem runComics_append (cs₁ cs₂ : List Comic) (seen : List (String × String)) :
    runComics fI hI today nowIso (cs₁ ++ cs₂) seen =
      ((runComics fI hI today nowIso cs₂ (runComics fI hI today nowIso cs₁ seen).1).1,
        (runComics fI hI today nowIso cs₁ seen).2
          ++ (runComics fI hI today nowIso cs₂
                (runComics fI hI today nowIso cs₁ seen).1).2) := by
  induction cs₁ generalizing seen with
  | nil => simp [runComics]
  | cons c cs ih => simp [runComics, ih, List.append_assoc]

theorem runComics_items_id (cs : List Comic) (seen : List (String × String)) :
    ∀ e ∈ (runComics fI hI today nowIso cs seen).2,
      ∃ c ∈ cs, e.id = dedupKey c.slug today := by
  induction cs generalizing seen with
  | nil => simp [runComics]
  | cons c cs ih =>
    intro e he
    simp only [runComics] at he
    rcases List.mem_append.mp he with h | h
    · exact ⟨c, List.mem_cons_self _ _, stepComic_items_id fI hI today nowIso c seen e h⟩
    · obtain ⟨c', hc', hid⟩ := ih _ e h
      exact ⟨c', List.mem_cons_of_mem _ hc', hid⟩

theorem runComics_items_length (cs : List Comic) (seen : List (String × String)) :
    (runComics fI hI today nowIso cs seen).2.length ≤ cs.length := by
  induction cs generalizing seen with
  | nil => simp [runComics]
  | cons c cs ih =>
    have h1 := stepComic_items_length fI hI today nowIso c seen
    have h2 := ih (stepComic fI hI today nowIso c seen).1
    simp only [runComics, List.length_append, List.length_cons]
    omega

theorem runComics_seen_get_ne (cs : List Comic) (seen : List (String × String)) (k : String)
    (h : ∀ c ∈ cs, dedupKey c.slug today ≠ k) :
    dictGet (runComics fI hI today nowIso cs seen).1 k = dictGet seen k := by
  induction cs generalizing seen with
  | nil => rfl
  | cons c cs ih =>
    simp only [runComics]
    rw [ih _ (fun c' hc' => h c' (List.mem_cons_of_mem _ hc')),
      stepComic_seen_get_ne fI hI today nowIso c seen k (h c (List.mem_cons_self _ _))]

end Orchestrator

/-! ## Dedup keys of distinct slugs are distinct -/

theorem dedupKey_ne_of_data (s₁ s₂ t : String) (c₁ c₂ : Char) (l₁ l₂ : List Char)
    (h₁ : s₁.data = c₁ :: l₁) (h₂ : s₂.data = c₂ :: l₂) (hne : c₁ ≠ c₂) :
    dedupKey s₁ t ≠ dedupKey s₂ t := by
  intro h
  apply hne
  have hd := congrArg String.data h
  unfold dedupKey at hd
  simp only [String.data_append] at hd
  rw [h₁, h₂] at hd
  simp only [List.cons_append, List.cons.injEq] at hd
  exact hd.1

theorem key_ne_gp (t : String) : dedupKey "garfield" t ≠ dedupKey "peanuts" t :=
  dedupKey_ne_of_data "garfield" "peanuts" t 'g' 'p'
    ['a', 'r', 'f', 'i', 'e', 'l', 'd'] ['e', 'a', 'n', 'u', 't', 's']
    (by decide) (by decide) (by decide)

theorem key_ne_gc (t : String) : dedupKey "garfield" t ≠ dedupKey "calvinandhobbes" t :=
  dedupKey_ne_of_data "garfield" "calvinandhobbes" t 'g' 'c'
    ['a', 'r', 'f', 'i', 'e', 'l', 'd']
    ['a', 'l', 'v', 'i', 'n', 'a', 'n', 'd', 'h', 'o', 'b', 'b', 'e', 's']
    (by decide) (by decide) (by decide)

theorem key_ne_gf (t : String) : dedupKey "garfield" t ≠ dedupKey "farside" t :=
  dedupKey_ne_of_data "garfield" "farside" t 'g' 'f'
    ['a', 'r', 'f', 'i', 'e', 'l', 'd'] ['a', 'r', 's', 'i', 'd', 'e']
    (by decide) (by decide) (by decide)

theorem key_ne_pc (t : String) : dedupKey "peanuts" t ≠ dedupKey "calvinandhobbes" t :=
  dedupKey_ne_of_data "peanuts" "calvinandhobbes" t 'p' 'c'
    ['e', 'a', 'n', 'u', 't', 's']
    ['a', 'l', 'v', 'i', 'n', 'a', 'n', 'd', 'h', 'o', 'b', 'b', 'e', 's']
    (by decide) (by decide) (by decide)

theorem key_ne_pf (t : String) : dedupKey "peanuts" t ≠ dedupKey "farside" t :=
  dedupKey_ne_of_data "peanuts" "farside" t 'p' 'f'
    ['e', 'a', 'n', 'u', 't', 's'] ['a', 'r', 's', 'i', 'd', 'e']
    (by decide) (by decide) (by decide)

theorem key_ne_cf (t : String) : dedupKey "calvinandhobbes" t ≠ dedupKey "farside" t :=
  dedupKey_ne_of_data "calvinandhobbes" "farside" t 'c' 'f'
    ['a', 'l', 'v', 'i', 'n', 'a', 'n', 'd', 'h', 'o', 'b', 'b', 'e', 's']
    ['a', 'r', 's', 'i', 'd', 'e']
    (by decide) (by decide) (by decide)

/-- Every configured comic splits `COMICS` into a prefix and suffix whose
dedup keys differ from its own for any date. -/
theorem comics_split (today : String) (c : Comic) (hc : c ∈ COMICS) :
    ∃ pre post, COMICS = pre ++ c :: post ∧
      (∀ c' ∈ pre, dedupKey c'.slug today ≠ dedupKey c.slug today) ∧
      (∀ c' ∈ post, dedupKey c'.slug today ≠ dedupKey c.slug today) := by
  have hc' : c = garfieldC ∨ c = peanutsC ∨ c = calvinC ∨ c = farsideC := by
    simpa [COMICS] using hc
  rcases hc' with h | h | h | h <;> subst h
  · refine ⟨[], [peanutsC, calvinC, farsideC], rfl, by simp, ?_⟩
    intro c' hc'
    have : c' = peanutsC ∨ c' = calvinC ∨ c' = farsideC := by simpa using hc'
    rcases this with h | h | h <;> subst h
    · exact Ne.symm (key_ne_gp today)
    · exact Ne.symm (key_ne_gc today)
    · exact Ne.symm (key_ne_gf today)
  · refine ⟨[garfieldC], [calvinC, farsideC], rfl, ?_, ?_⟩
    · intro c' hc'
      have : c' = garfieldC := by simpa using hc'
      subst this
      exact key_ne_gp today
    · intro c' hc'
      have : c' = calvinC ∨ c' = farsideC := by simpa using hc'
      rcases this with h | h <;> subst h
      · exact Ne.symm (key_ne_pc today)
      · exact Ne.symm (key_ne_pf today)
  · refine ⟨[garfieldC, peanutsC], [farsideC], rfl, ?_, ?_⟩
    · intro c' hc'
      have : c' = garfieldC ∨ c' = peanutsC := by simpa using hc'
      rcases this with h | h <;> subst h
      · exact key_ne_gc today
      · exact key_ne_pc today
    · intro c' hc'
      have : c' = farsideC := by simpa using hc'
      subst this
      exact Ne.symm (key_ne_cf today)
  · refine ⟨[garfieldC, peanutsC, calvinC], [], rfl, ?_, by simp⟩
    intro c' hc'
    have : c' = garfieldC ∨ c' = peanutsC ∨ c' = calvinC := by simpa using hc'
    rcases this with h | h | h <;> subst h
    · exact key_ne_gf today
    · exact key_ne_pf today
    · exact key_ne_cf today

/-! ## History membership helpers -/

theorem mem_take_append {α : Type} (a : α) (l₁ l₂ : List α) (n : Nat)
    (h : a ∈ l₁) (hn : l₁.length ≤ n) : a ∈ (l₁ ++ l₂).take n := by
  rw [List.take_append_eq_append_take, List.take_of_length_le hn]
  exact List.mem_append_left _ h

theorem mem_history_of_mem_items (fI : String → Except String String)
    (hI : String → String → String → Except String String)
    (today nowIso : String) (st : RunState) (e : Entry)
    (he : e ∈ (runComics fI hI today nowIso COMICS st.seen).2) :
    e ∈ (runMain fI hI today nowIso st).history := by
  unfold runMain
  exact mem_take_append e _ st.history 90 he
    (le_trans (runComics_items_length fI hI today nowIso COMICS st.seen) (by decide))

theorem run_entry_of_split (fI : String → Except String String)
    (hI : String → String → String → Except String String)
    (today nowIso : String) (pre post : List Comic) (c : Comic)
    (hsplit : COMICS = pre ++ c :: post) (st : RunState) (e : Entry)
    (he : e ∈ (stepComic fI hI today nowIso c
        (runComics fI hI today nowIso pre st.seen).1).2) :
    e ∈ (runMain fI hI today nowIso st).history := by
  apply mem_history_of_mem_items
  rw [hsplit, runComics_append]
  apply List.mem_append_right
  simp only [runComics]
  exact List.mem_append_left _ he

end MakeFeed

namespace MakeFeed

/-- C3: a failing source (transport/extraction error from the page fetch,
or a transport/filesystem error while caching the image) yields a
link-only fallback entry in the run's published history; every other
source is still processed (a successful source's entry is in the history
whatever the other oracles do); and the history rebuild and state write
happen unconditionally — `runMain` is total and its result is exactly the
truncated prepend. -/
theorem run_isolates_failures (fI : String → Except String String)
    (hI : String → String → String → Except String String)
    (today nowIso : String) (st : RunState) :
    (∀ c ∈ COMICS, (∃ err, fI c.url = Except.error err) →
        fallbackEntry c today nowIso ∈ (runMain fI hI today nowIso st).history) ∧
    (∀ c ∈ COMICS, ∀ real, fI c.url = Except.ok real →
        ¬(c.slug ≠ "calvinandhobbes" ∧
            dictGet st.seen (dedupKey c.slug today) = some real) →
        (∃ err, hI real c.slug today = Except.error err) →
        fallbackEntry c today nowIso ∈ (runMain fI hI today nowIso st).history) ∧
    (∀ c ∈ COMICS, ∀ real hosted, fI c.url = Except.ok real →
        ¬(c.slug ≠ "calvinandhobbes" ∧
            dictGet st.seen (dedupKey c.slug today) = some real) →
        hI real c.slug today = Except.ok hosted →
        successEntry c today nowIso hosted ∈ (runMain fI hI today nowIso st).history) ∧
    (runMain fI hI today nowIso st).history =
      ((runComics fI hI today nowIso COMICS st.seen).2 ++ st.history).take 90 := by
  refine ⟨?_, ?_, ?_, rfl⟩
  · intro c hc herr
    obtain ⟨err, herr⟩ := herr
    obtain ⟨pre, post, hsplit, hpre, hpost⟩ := comics_split today c hc
    apply run_entry_of_split fI hI today nowIso pre post c hsplit
    rw [stepComic_fetch_err fI hI today nowIso c _ err herr]
    exact List.mem_singleton_self _
  · intro c hc real hf hskip hherr
    obtain ⟨err, hherr⟩ := hherr
    obtain ⟨pre, post, hsplit, hpre, hpost⟩ := comics_split today c hc
    have hg : dictGet (runComics fI hI today nowIso pre st.seen).1
        (dedupKey c.slug today) = dictGet st.seen (dedupKey c.slug today) :=
      runComics_seen_get_ne fI hI today nowIso pre st.seen _ hpre
    have hskip' : ¬(c.slug ≠ "calvinandhobbes" ∧
        dictGet (runComics fI hI today nowIso pre st.seen).1
          (dedupKey c.slug today) = some real) := by
      rw [hg]
      exact hskip
    apply run_entry_of_split fI hI today nowIso pre post c hsplit
    rw [stepComic_host_err fI hI today nowIso c _ real err hf hskip' hherr]
    exact List.mem_singleton_self _
  · intro c hc real hosted hf hskip hh
    obtain ⟨pre, post, hsplit, hpre, hpost⟩ := comics_split today c hc
    have hg : dictGet (runComics fI hI today nowIso pre st.seen).1
        (dedupKey c.slug today) = dictGet st.seen (dedupKey c.slug today) :=
      runComics_seen_get_ne fI hI today nowIso pre st.seen _ hpre
    have hskip' : ¬(c.slug ≠ "calvinandhobbes" ∧
        dictGet (runComics fI hI today nowIso pre st.seen).1
          (dedupKey c.slug today) = some real) := by
      rw [hg]
      exact hskip
    apply run_entry_of_split fI hI today nowIso pre post c hsplit
    rw [stepComic_success fI hI today nowIso c _ real hosted hf hskip' hh]
    exact List.mem_singleton_self _

/-- Witness for C3: Garfield extracts and caches successfully while every
other source's fetch raises; the history holds Garfield's real entry and
Peanuts' link-only fallback. -/
theorem run_isolates_failures_witness :
    fallbackEntry peanutsC "2024-01-01" "T"
        ∈ (runMain wFetch wHost "2024-01-01" "T" emptyState).history ∧
    successEntry garfieldC "2024-01-01" "T"
        "https://mclars27.github.io/my-comics-rss/images/g.gif"
        ∈ (runMain wFetch wHost "2024-01-01" "T" emptyState).history :=
  ⟨(run_isolates_failures wFetch wHost "2024-01-01" "T" emptyState).1 peanutsC
      (by decide) ⟨"boom", rfl⟩,
    (run_isolates_failures wFetch wHost "2024-01-01" "T" emptyState).2.2.1 garfieldC
      (by decide) "https://assets.amuniversal.com/g1"
      "https://mclars27.github.io/my-comics-rss/images/g.gif" rfl (by decide) rfl⟩

end MakeFeed

namespace MakeFeed

/-- C4: after every run the history holds at most 90 entries; it is the
run's new items followed by a truncated prefix of the old history; and the
new items are grouped one (at most) per source, in the configured source
order Garfield, Peanuts, Calvin and Hobbes, The Far Side. -/
theorem run_history_bounded_ordered (fI : String → Except String String)
    (hI : String → String → String → Except String String)
    (today nowIso : String) (st : RunState) :
    (runMain fI hI today nowIso st).history.length ≤ 90 ∧
    (∃ k, (runMain fI hI today nowIso st).history =
        (runComics fI hI today nowIso COMICS st.seen).2 ++ st.history.take k) ∧
    (∃ l₁ l₂ l₃ l₄,
        (runComics fI hI today nowIso COMICS st.seen).2 = l₁ ++ (l₂ ++ (l₃ ++ l₄)) ∧
        l₁.length ≤ 1 ∧ l₂.length ≤ 1 ∧ l₃.length ≤ 1 ∧ l₄.length ≤ 1 ∧
        (∀ e ∈ l₁, e.id = dedupKey garfieldC.slug today) ∧
        (∀ e ∈ l₂, e.id = dedupKey peanutsC.slug today) ∧
        (∀ e ∈ l₃, e.id = dedupKey calvinC.slug today) ∧
        (∀ e ∈ l₄, e.id = dedupKey farsideC.slug today)) := by
  refine ⟨?_, ?_, ?_⟩
  · unfold runMain
    exact List.length_take_le _ _
  · refine ⟨90 - (runComics fI hI today nowIso COMICS st.seen).2.length, ?_⟩
    unfold runMain
    rw [List.take_append_eq_append_take, List.take_of_length_le
      (le_trans (runComics_items_length fI hI today nowIso COMICS st.seen) (by decide))]
  · refine ⟨(stepComic fI hI today nowIso garfieldC st.seen).2,
      (stepComic fI hI today nowIso peanutsC
        (stepComic fI hI today nowIso garfieldC st.seen).1).2,
      (stepComic fI hI today nowIso calvinC
        (stepComic fI hI today nowIso peanutsC
          (stepComic fI hI today nowIso garfieldC st.seen).1).1).2,
      (stepComic fI hI today nowIso farsideC
        (stepComic fI hI today nowIso calvinC
          (stepComic fI hI today nowIso peanutsC
            (stepComic fI hI today nowIso garfieldC st.seen).1).1).1).2,
      ?_,
      stepComic_items_length fI hI today nowIso garfieldC _,
      stepComic_items_length fI hI today nowIso peanutsC _,
      stepComic_items_length fI hI today nowIso calvinC _,
      stepComic_items_length fI hI today nowIso farsideC _,
      stepComic_items_id fI hI today nowIso garfieldC _,
      stepComic_items_id fI hI today nowIso peanutsC _,
      stepComic_items_id fI hI today nowIso calvinC _,
      stepComic_items_id fI hI today nowIso farsideC _⟩
    simp [COMICS, runComics]

/-- Witness for C4 at a concrete run. -/
theorem run_history_bounded_ordered_witness :
    (runMain wFetch wHost "2024-01-01" "T" emptyState).history.length ≤ 90 :=
  (run_history_bounded_ordered wFetch wHost "2024-01-01" "T" emptyState).1

/-- C5: for a source not flagged always-republish (slug other than
`calvinandhobbes`), when the freshly extracted URL equals the URL stored
under its `slug:date` key, the run adds no entry for that source (no new
item carries its id) and `seen` still maps that key to the same URL
afterwards. -/
theorem dedup_skip_no_entry (fI : String → Except String String)
    (hI : String → String → String → Except String String)
    (today nowIso : String) (st : RunState) (c : Comic) (real : String)
    (hc : c ∈ COMICS) (hslug : c.slug ≠ "calvinandhobbes")
    (hfetch : fI c.url = Except.ok real)
    (hseen : dictGet st.seen (dedupKey c.slug today) = some real) :
    dictGet (runMain fI hI today nowIso st).seen (dedupKey c.slug today) = some real ∧
    ∀ e ∈ (runComics fI hI today nowIso COMICS st.seen).2,
      e.id ≠ dedupKey c.slug today := by
  obtain ⟨pre, post, hsplit, hpre, hpost⟩ := comics_split today c hc
  have hg1 : dictGet (runComics fI hI today nowIso pre st.seen).1
      (dedupKey c.slug today) = some real := by
    rw [runComics_seen_get_ne fI hI today nowIso pre st.seen _ hpre]
    exact hseen
  have hstep := stepComic_skip fI hI today nowIso c
    (runComics fI hI today nowIso pre st.seen).1 real hfetch ⟨hslug, hg1⟩
  constructor
  · show dictGet (runComics fI hI today nowIso COMICS st.seen).1
      (dedupKey c.slug today) = some real
    rw [hsplit, runComics_append]
    show dictGet (runComics fI hI today nowIso (c :: post)
      (runComics fI hI today nowIso pre st.seen).1).1 (dedupKey c.slug today) = some real
    simp only [runComics]
    rw [hstep]
    rw [runComics_seen_get_ne fI hI today nowIso post _ _ hpost]
    exact hg1
  · intro e he
    rw [hsplit, runComics_append] at he
    rcases List.mem_append.mp he with h | h
    · obtain ⟨c', hc', hid⟩ := runComics_items_id fI hI today nowIso pre st.seen e h
      rw [hid]
      exact hpre c' hc'
    · simp only [runComics] at h
      rw [hstep] at h
      simp only [List.nil_append] at h
      obtain ⟨c', hc', hid⟩ := runComics_items_id fI hI today nowIso post _ e h
      rw [hid]
      exact hpost c' hc'

/-- Witness for C5: Garfield's stored URL matches the fresh extraction, so
the key's stored value is unchanged after the run. -/
theorem dedup_skip_no_entry_witness :
    dictGet (runMain wFetch wHost "2024-01-01" "T" seenGarfieldState).seen
      (dedupKey garfieldC.slug "2024-01-01") = some "https://assets.amuniversal.com/g1" :=
  (dedup_skip_no_entry wFetch wHost "2024-01-01" "T" seenGarfieldState garfieldC
    "https://assets.amuniversal.com/g1" (by decide) (by decide) rfl (by decide)).1

end MakeFeed

namespace MakeFeed

/-- C6 counterexample: Garfield's URL extraction succeeds but the image
download fails, and the run leaves `seen[garfield:2024-01-01]` unset —
`seen` records successful caching, not successful extraction, so "set iff
a successful extraction occurred" fails on this input. -/
theorem seen_iff_extraction_counterexample :
    wFetch garfieldC.url = Except.ok "https://assets.amuniversal.com/g1" ∧
    garfieldC ∈ COMICS ∧
    dictGet (runMain wFetch wHostFail "2024-01-01" "T" emptyState).seen
      (dedupKey garfieldC.slug "2024-01-01") = Option.none :=
  ⟨rfl, by decide, by decide⟩

/-- C6 (amended): for a key unset before the run, `seen[slug:date]` is set
after the run iff that source's URL extraction and its image
download/caching both succeeded, in which case it stores exactly the
freshly extracted URL. -/
theorem seen_set_iff_cached (fI : String → Except String String)
    (hI : String → String → String → Except String String)
    (today nowIso : String) (st : RunState) (c : Comic)
    (hc : c ∈ COMICS)
    (hnone : dictGet st.seen (dedupKey c.slug today) = Option.none) :
    ((dictGet (runMain fI hI today nowIso st).seen
        (dedupKey c.slug today)).isSome = true ↔
      ∃ real hosted, fI c.url = Except.ok real ∧
        hI real c.slug today = Except.ok hosted) ∧
    (∀ real hosted, fI c.url = Except.ok real →
      hI real c.slug today = Except.ok hosted →
      dictGet (runMain fI hI today nowIso st).seen
        (dedupKey c.slug today) = some real) := by
  obtain ⟨pre, post, hsplit, hpre, hpost⟩ := comics_split today c hc
  have hg1 : dictGet (runComics fI hI today nowIso pre st.seen).1
      (dedupKey c.slug today) = Option.none := by
    rw [runComics_seen_get_ne fI hI today nowIso pre st.seen _ hpre]
    exact hnone
  have hfinal : dictGet (runMain fI hI today nowIso st).seen (dedupKey c.slug today) =
      dictGet (stepComic fI hI today nowIso c
        (runComics fI hI today nowIso pre st.seen).1).1 (dedupKey c.slug today) := by
    show dictGet (runComics fI hI today nowIso COMICS st.seen).1 (dedupKey c.slug today) = _
    rw [hsplit, runComics_append]
    show dictGet (runComics fI hI today nowIso (c :: post)
      (runComics fI hI today nowIso pre st.seen).1).1 (dedupKey c.slug today) = _
    simp only [runComics]
    rw [runComics_seen_get_ne fI hI today nowIso post _ _ hpost]
  rcases hf : fI c.url with err | real
  · have hstep := stepComic_fetch_err fI hI today nowIso c
      (runComics fI hI today nowIso pre st.seen).1 err hf
    rw [hstep] at hfinal
    constructor
    · rw [hfinal, hg1]
      simp only [Option.isSome_none, Bool.false_eq_true, false_iff]
      rintro ⟨real, hosted, h1, h2⟩
      exact Except.noConfusion h1
    · intro real hosted h1 h2
      exact Except.noConfusion h1
  · have hskip : ¬(c.slug ≠ "calvinandhobbes" ∧
        dictGet (runComics fI hI today nowIso pre st.seen).1
          (dedupKey c.slug today) = some real) := by
      rintro ⟨-, habs⟩
      rw [hg1] at habs
      exact Option.noConfusion habs
    rcases hh : hI real c.slug today with err2 | hosted
    · have hstep := stepComic_host_err fI hI today nowIso c
        (runComics fI hI today nowIso pre st.seen).1 real err2 hf hskip hh
      rw [hstep] at hfinal
      constructor
      · rw [hfinal, hg1]
        simp only [Option.isSome_none, Bool.false_eq_true, false_iff]
        rintro ⟨real', hosted', h1, h2⟩
        injection h1 with h1'
        subst h1'
        rw [hh] at h2
        exact Except.noConfusion h2
      · intro real' hosted' h1 h2
        injection h1 with h1'
        subst h1'
        rw [hh] at h2
        exact Except.noConfusion h2
    · have hstep := stepComic_success fI hI today nowIso c
        (runComics fI hI today nowIso pre st.seen).1 real hosted hf hskip hh
      rw [hstep] at hfinal
      rw [dictGet_dictSet_self] at hfinal
      constructor
      · rw [hfinal]
        simp only [Option.isSome_some, true_iff]
        exact ⟨real, hosted, rfl, hh⟩
      · intro real' hosted' h1 h2
        injection h1 with h1'
        subst h1'
        exact hfinal

/-- Witness for C6's amended theorem: extraction and caching both succeed
for Garfield, and `seen` then stores the extracted URL. -/
theorem seen_set_iff_cached_witness :
    dictGet (runMain wFetch wHost "2024-01-01" "T" emptyState).seen
      (dedupKey garfieldC.slug "2024-01-01") = some "https://assets.amuniversal.com/g1" :=
  (seen_set_iff_cached wFetch wHost "2024-01-01" "T" emptyState garfieldC
    (by decide) rfl).2 "https://assets.amuniversal.com/g1"
    "https://mclars27.github.io/my-comics-rss/images/g.gif" rfl rfl

/-- C10 counterexample: two runs on the same date with every fetch
failing leave two history entries with id `garfield:2024-01-01`, so the
published history does not hold at most one entry per `slug:date` across
runs. -/
theorem duplicate_ids_across_runs :
    (runMain failFetch wHostFail "2024-01-01" "T"
        (runMain failFetch wHostFail "2024-01-01" "T" emptyState)).history.countP
      (fun e => e.id == "garfield:2024-01-01") = 2 := by decide

/-- C10 (amended): within a single run at most one new entry carries a
given source's `slug:date` id, and a failed source is represented by a
link-only entry (empty image) rather than omitted; only across several
same-date runs can duplicates accumulate. -/
theorem one_entry_per_source_per_run (fI : String → Except String String)
    (hI : String → String → String → Except String String)
    (today nowIso : String) (st : RunState) (c : Comic) (hc : c ∈ COMICS) :
    (runComics fI hI today nowIso COMICS st.seen).2.countP
        (fun e => e.id == dedupKey c.slug today) ≤ 1 ∧
    ((∃ err, fI c.url = Except.error err) →
      fallbackEntry c today nowIso ∈ (runMain fI hI today nowIso st).history ∧
      (fallbackEntry c today nowIso).img = "") := by
  obtain ⟨pre, post, hsplit, hpre, hpost⟩ := comics_split today c hc
  constructor
  · rw [hsplit, runComics_append]
    show ((runComics fI hI today nowIso pre st.seen).2
        ++ (runComics fI hI today nowIso (c :: post)
              (runComics fI hI today nowIso pre st.seen).1).2).countP
      (fun e => e.id == dedupKey c.slug today) ≤ 1
    rw [List.countP_append]
    have h1 : (runComics fI hI today nowIso pre st.seen).2.countP
        (fun e => e.id == dedupKey c.slug today) = 0 := by
      apply List.countP_eq_zero.mpr
      intro e he
      obtain ⟨c', hc', hid⟩ := runComics_items_id fI hI today nowIso pre st.seen e he
      simp only [hid, beq_iff_eq]
      exact hpre c' hc'
    have h2 : (runComics fI hI today nowIso (c :: post)
        (runComics fI hI today nowIso pre st.seen).1).2.countP
        (fun e => e.id == dedupKey c.slug today) ≤ 1 := by
      simp only [runComics]
      rw [List.countP_append]
      have h3 : (runComics fI hI today nowIso post
          (stepComic fI hI today nowIso c
            (runComics fI hI today nowIso pre st.seen).1).1).2.countP
          (fun e => e.id == dedupKey c.slug today) = 0 := by
        apply List.countP_eq_zero.mpr
        intro e he
        obtain ⟨c', hc', hid⟩ := runComics_items_id fI hI today nowIso post _ e he
        simp only [hid, beq_iff_eq]
        exact hpost c' hc'
      have h4 := List.countP_le_length (fun e => e.id == dedupKey c.slug today)
        (l := (stepComic fI hI today nowIso c
          (runComics fI hI today nowIso pre st.seen).1).2)
      have h5 := stepComic_items_length fI hI today nowIso c
        (runComics fI hI today nowIso pre st.seen).1
      omega
    omega
  · rintro ⟨err, herr⟩
    refine ⟨?_, rfl⟩
    apply run_entry_of_split fI hI today nowIso pre post c hsplit
    rw [stepComic_fetch_err fI hI today nowIso c _ err herr]
    exact List.mem_singleton_self _

/-- Witness for C10's amended theorem at a concrete failing run. -/
theorem one_entry_per_source_per_run_witness :
    (runComics failFetch wHostFail "2024-01-01" "T" COMICS emptyState.seen).2.countP
      (fun e => e.id == dedupKey garfieldC.slug "2024-01-01") ≤ 1 :=
  (one_entry_per_source_per_run failFetch wHostFail "2024-01-01" "T" emptyState
    garfieldC (by decide)).1

end MakeFeed
